import Mathlib

/-!
Verification of the query service of strapi-plugin-sitemap
(`src/server/services/query.js`): the config aggregator
(`getFieldsFromConfig`, `getRelationsFromConfig`), the page-query assembler
(`getPages`) and the sitemap / sitemap-cache persistence operations
(`createSitemap`, `deleteSitemap`, `createSitemapCache`,
`updateSitemapCache`).

JavaScript runtime behaviour is embedded explicitly:
* a JS object property that may be absent becomes an `Option`;
* code that can throw (e.g. `Object.entries(undefined)`) returns `Except`;
* `new Set(...)` dedup keeps the first occurrence of each value;
* object assignment `obj[k] = v` upserts, keeping the original key position;
* object spread `{ a: x, ...rest }` upserts every entry of `rest` in order.
-/

/-- Errors that the embedded query-service code can raise: the `TypeError`
thrown by `Object.entries(undefined)` when a present config lacks the
`languages` property, and the pattern-service error for a `[` token with no
closing `]`. -/
inductive QueryError where
  | typeError
  | unmatchedBracket
deriving DecidableEq, Repr

/-- Decidable equality of `Except` results, so that concrete runs of the
embedded functions can be checked by `decide`. -/
instance {ε α : Type} [DecidableEq ε] [DecidableEq α] : DecidableEq (Except ε α) := fun a b =>
  match a, b with
  | .error e, .error f =>
    if h : e = f then .isTrue (by rw [h]) else .isFalse (by intro hc; cases hc; exact h rfl)
  | .error _, .ok _ => .isFalse (by intro hc; cases hc)
  | .ok _, .error _ => .isFalse (by intro hc; cases hc)
  | .ok x, .ok y =>
    if h : x = y then .isTrue (by rw [h]) else .isFalse (by intro hc; cases hc; exact h rfl)

/-- Helper for `jsSetDedup`: keep the elements not yet in `seen`, in
order. -/
def jsSetDedupAux : List String → List String → List String
  | [], _ => []
  | a :: l, seen => if a ∈ seen then jsSetDedupAux l seen else a :: jsSetDedupAux l (a :: seen)

/-- `[...new Set(fields)]`: deduplicate a list of strings keeping the first
occurrence of each value, in first-insertion order. -/
def jsSetDedup (l : List String) : List String :=
  jsSetDedupAux l []

/-- JS object assignment `obj[k] = v` on an object represented as an
association list in key-insertion order: overwrite the value at `k` keeping
its position if `k` is already a key, otherwise append `(k, v)`. -/
def jsObjSet {V : Type} (obj : List (String × V)) (k : String) (v : V) : List (String × V) :=
  if obj.any (fun p => p.1 == k) then
    obj.map (fun p => if p.1 = k then (k, v) else p)
  else
    obj ++ [(k, v)]

/-- JS object lookup `obj[k]` on the association-list representation:
the value at the unique binding of `k`, if any. -/
def jsObjGet {V : Type} (obj : List (String × V)) (k : String) : Option V :=
  (obj.find? (fun p => p.1 == k)).map (fun p => p.2)

/-! ## Pattern service

The query service calls `getService('pattern').getFieldsFromPattern` and
`getService('pattern').getRelationsFromPattern`; the pattern service itself
is not part of the sources under verification, so it is modelled from the
spec (§4.1, §4.2). -/

/-- Split a token's character list on `.` into its segments ("dotted string
split on `.`", spec §4.1); `acc` holds the reversed characters of the
current segment. -/
def splitDotsAux : List Char → List Char → List String
  | [], acc => [String.mk acc.reverse]
  | c :: rest, acc =>
    if c = '.' then String.mk acc.reverse :: splitDotsAux rest [] else splitDotsAux rest (c :: acc)

/-- Re-join segments with `.` (spec §4.2: the remainder is "re-joined if
more than one remaining segment"). -/
def joinDotsAux : List String → List Char
  | [] => []
  | [s] => s.data
  | s :: rest => s.data ++ '.' :: joinDotsAux rest

/-- Re-join a segment list into a dotted field path. -/
def joinDots (segs : List String) : String :=
  String.mk (joinDotsAux segs)

/-- Modelled from the spec: §4.1 Pattern Parser — missing from the sources
(`src/server/services/pattern.js` is not under `src/`). Scan the pattern
left to right; `[` opens a placeholder, the text up to the next `]` is one
token, split on `.` into segments (duplicates kept, order of appearance).
The second argument is `none` outside a placeholder and `some acc` (the
reversed characters read so far) inside one; a `[` with no matching `]`
fails with the pattern-syntax error. -/
def parseAux : List Char → Option (List Char) → Except QueryError (List (List String))
  | [], none => Except.ok []
  | [], some _ => Except.error .unmatchedBracket
  | c :: rest, none =>
    if c = '[' then parseAux rest (some []) else parseAux rest none
  | c :: rest, some acc =>
    if c = ']' then
      match parseAux rest none with
      | Except.error e => Except.error e
      | Except.ok more => Except.ok (splitDotsAux acc.reverse [] :: more)
    else parseAux rest (some (c :: acc))

/-- Modelled from the spec: §4.1 — `parse(pattern) -> ordered sequence of
PathToken`. The text before the first `[` and between `]` and the next `[`
is literal URL text carrying no tokens. -/
def parsePattern (pattern : String) : Except QueryError (List (List String)) :=
  parseAux pattern.data none

/-- Modelled from the spec: §4.2 — classification of one parsed token by
`fieldsFromPattern`. A one-segment token is a top-level field, included
unless a relation filter is set. A multi-segment token names a relation
(first segment) and a field within it (remaining segments re-joined): with
a relation filter it contributes the re-joined remainder exactly when the
first segment equals the filter; without a filter it contributes the full
dotted path, but only when `topLevel` is false. -/
def tokenField (topLevel : Bool) (relation : Option String) (tok : List String) : Option String :=
  match relation with
  | some rel =>
    match tok with
    | [] => none
    | [_] => none
    | first :: rest => if first = rel then some (joinDots rest) else none
  | none =>
    match tok with
    | [] => none
    | [f] => some f
    | _ => if topLevel then none else some (joinDots tok)

/-- Modelled from the spec: §4.2 — `fieldsFromPattern(pattern, topLevelOnly,
relationFilter?)`, the pattern-service operation the query service invokes
per language. -/
def getFieldsFromPattern (pattern : String) (topLevel : Bool) (relation : Option String) :
    Except QueryError (List String) :=
  match parsePattern pattern with
  | Except.error e => Except.error e
  | Except.ok toks => Except.ok (toks.filterMap (tokenField topLevel relation))

/-- Modelled from the spec: §4.2 — `relationsFromPattern(pattern)`: the set
of first-segment names of every multi-segment token, deduplicated. -/
def getRelationsFromPattern (pattern : String) : Except QueryError (List String) :=
  match parsePattern pattern with
  | Except.error e => Except.error e
  | Except.ok toks =>
    Except.ok (jsSetDedup (toks.filterMap (fun tok =>
      match tok with
      | first :: _ :: _ => some first
      | _ => none)))

/-! ## Config aggregator (`getFieldsFromConfig`, `getRelationsFromConfig`) -/

/-- One per-language entry of a content-type config: `{ pattern }`. -/
structure LangConfig where
  pattern : String
deriving DecidableEq, Repr

/-- A content-type config. The JS code accesses `contentType['languages']`
without guarding, so the property is embedded as an `Option`: `none` models
a config object that lacks the `languages` property. -/
structure CTConfig where
  languages : Option (List (String × LangConfig))
deriving DecidableEq, Repr

/-- The per-language loop body of `getFieldsFromConfig` (query.js lines
24-26): push the pattern fields of every language, in language order. -/
def langFields (langs : List (String × LangConfig)) (topLevel : Bool) (relation : Option String) :
    Except QueryError (List String) :=
  match langs with
  | [] => Except.ok []
  | (_, lc) :: rest =>
    match getFieldsFromPattern lc.pattern topLevel relation with
    | Except.error e => Except.error e
    | Except.ok fs =>
      match langFields rest topLevel relation with
      | Except.error e => Except.error e
      | Except.ok more => Except.ok (fs ++ more)

/-- `getFieldsFromConfig(contentType, topLevel, isLocalized, relation)`
(query.js lines 20-41). A falsy (absent) content type contributes no
pattern fields; a present config with no `languages` property throws
(`Object.entries(undefined)`). When `topLevel` is set, `locale` is pushed
if `isLocalized`, then `updatedAt` is always pushed; duplicates are then
removed with first-occurrence `Set` semantics. -/
def getFieldsFromConfig (contentType : Option CTConfig) (topLevel isLocalized : Bool)
    (relation : Option String) : Except QueryError (List String) :=
  match contentType with
  | none =>
    Except.ok (jsSetDedup (if topLevel then (if isLocalized then ["locale"] else []) ++ ["updatedAt"] else []))
  | some c =>
    match c.languages with
    | none => Except.error .typeError
    | some langs =>
      match langFields langs topLevel relation with
      | Except.error e => Except.error e
      | Except.ok patternFields =>
        Except.ok (jsSetDedup (patternFields ++
          (if topLevel then (if isLocalized then ["locale"] else []) ++ ["updatedAt"] else [])))

/-- The value stored under each relation key: `{ fields: [...] }`. -/
structure RelEntry where
  fields : List String
deriving DecidableEq, Repr

/-- The inner loop of `getRelationsFromConfig` (query.js lines 57-61): for
each relation name found in one language's pattern, assign
`relationsObject[relation] = { fields: getFieldsFromConfig(contentType,
false, false, relation) }`. -/
def addRels (contentType : Option CTConfig) (rels : List String)
    (obj : List (String × RelEntry)) : Except QueryError (List (String × RelEntry)) :=
  match rels with
  | [] => Except.ok obj
  | rel :: rest =>
    match getFieldsFromConfig contentType false false (some rel) with
    | Except.error e => Except.error e
    | Except.ok fs => addRels contentType rest (jsObjSet obj rel ⟨fs⟩)

/-- The per-language loop of `getRelationsFromConfig` (query.js lines
55-62). -/
def relObjForLangs (contentType : Option CTConfig) (langs : List (String × LangConfig))
    (obj : List (String × RelEntry)) : Except QueryError (List (String × RelEntry)) :=
  match langs with
  | [] => Except.ok obj
  | (_, lc) :: rest =>
    match getRelationsFromPattern lc.pattern with
    | Except.error e => Except.error e
    | Except.ok rels =>
      match addRels contentType rels obj with
      | Except.error e => Except.error e
      | Except.ok obj' => relObjForLangs contentType rest obj'

/-- `getRelationsFromConfig(contentType)` (query.js lines 51-66). -/
def getRelationsFromConfig (contentType : Option CTConfig) :
    Except QueryError (List (String × RelEntry)) :=
  match contentType with
  | none => Except.ok []
  | some c =>
    match c.languages with
    | none => Except.error .typeError
    | some langs => relObjForLangs contentType langs []

/-! ## Page query assembler (`getPages`, query.js lines 77-123)

`getPages` mixes pure assembly with the final store call
`noLimit(strapi, contentType, {...})`; the embedding captures the pure
part: the fetch specification handed to the store. -/

/-- `strapi.contentTypes[uid].options`. The code reads
`options.draftAndPublish` without optional chaining, so `options` itself is
an `Option` (absent property) and the flag inside it is another
`Option` (absent key, read as `undefined`, which is falsy). -/
structure OptionsObj where
  draftAndPublish : Option Bool
deriving DecidableEq, Repr

/-- `pluginOptions.i18n`. -/
structure I18nObj where
  localized : Option Bool
deriving DecidableEq, Repr

/-- `strapi.contentTypes[uid].pluginOptions`, read with optional chaining
`pluginOptions?.i18n?.localized`. -/
structure PluginOptionsObj where
  i18n : Option I18nObj
deriving DecidableEq, Repr

/-- The runtime metadata of one content type
(`strapi.contentTypes[uid]`). -/
structure CTMeta where
  options : Option OptionsObj
  pluginOptions : Option PluginOptionsObj
deriving DecidableEq, Repr

/-- The plugin config object as used by `getPages`: the global
`excludeDrafts` flag and the per-content-type configs. -/
structure SitemapConfig where
  excludeDrafts : Bool
  contentTypes : List (String × CTConfig)
deriving DecidableEq, Repr

/-- `config.excludeDrafts && strapi.contentTypes[ct].options.draftAndPublish`
(query.js line 78). `&&` short-circuits, so the property chain is only read
when `config.excludeDrafts` is truthy; reading `.draftAndPublish` off an
absent `options` object throws a `TypeError`; an absent flag reads as
`undefined`, which is falsy. -/
def computeExcludeDrafts (config : SitemapConfig) (meta : CTMeta) : Except QueryError Bool :=
  if config.excludeDrafts then
    match meta.options with
    | none => Except.error .typeError
    | some o => Except.ok (o.draftAndPublish.getD false)
  else Except.ok false

/-- `strapi.contentTypes[ct].pluginOptions?.i18n?.localized` (query.js line
79), with the resulting `undefined` treated as falsy where the value is
used. -/
def computeIsLocalized (meta : CTMeta) : Bool :=
  (((meta.pluginOptions.bind (fun p => p.i18n)).bind (fun i => i.localized))).getD false

/-- The shape of a page record, as far as the assembled filter inspects it:
its identifier, the `sitemap_exclude` flag (a nullable boolean column) and
the nullable `published_at` timestamp. -/
structure PageRecord where
  id : Nat
  sitemap_exclude : Option Bool
  published_at : Option Nat
deriving DecidableEq, Repr

/-- The filter object built by `getPages` (query.js lines 86-105). The
`$or` block over `sitemap_exclude` is always present. `idEq = none` models
the empty clause `{}` produced when `id` is falsy (absent or `0`), and
`publishedNotNull = false` models the empty clause produced when
`excludeDrafts` is false. -/
structure PageFilters where
  idEq : Option Nat
  publishedNotNull : Bool
deriving DecidableEq, Repr

/-- Build the filter object: `id: id ? { $eq: id } : {}` and
`published_at: excludeDrafts ? { $notNull: true } : {}`. JS truthiness of
a number makes `id = 0` behave like an absent id. -/
def buildPageFilters (excludeDrafts : Bool) (id : Option Nat) : PageFilters :=
  { idEq := id.filter (fun i => i ≠ 0)
    publishedNotNull := excludeDrafts }

/-- The predicate a filter object denotes on one record: the `$or` of
`sitemap_exclude` `$null`/`$eq false`, conjoined with the `id` `$eq` clause
and the `published_at` `$notNull` clause when present (an empty clause `{}`
matches every record). -/
def matchesFilters (f : PageFilters) (r : PageRecord) : Bool :=
  (r.sitemap_exclude == none || r.sitemap_exclude == some false)
    && (match f.idEq with
        | some i => r.id == i
        | none => true)
    && (!f.publishedNotNull || !(r.published_at == none))

/-- One value of the `populate` object passed to the store: either a plain
relation populate `{ fields }`, or the `localizations` populate
`{ fields, populate }` that mirrors the top-level fields and relation
map. -/
inductive PopulateEntry where
  | rel (fields : List String)
  | localizations (fields : List String) (populate : List (String × RelEntry))
deriving DecidableEq, Repr

/-- The fetch specification handed to `noLimit` (query.js lines 107-120).
`whereFilters` embeds the `where: filters` key, which duplicates
`filters`. -/
structure FetchSpec where
  whereFilters : PageFilters
  filters : PageFilters
  locale : String
  fields : List String
  populate : List (String × PopulateEntry)
  orderBy : String
deriving DecidableEq, Repr

/-- The pure part of `getPages(config, contentType, id)` (query.js lines
77-120): everything up to and including the fetch specification passed to
the store. The `populate` object is written
`{ localizations: { fields, populate: relations }, ...relations }`, so the
spread upserts every relation entry after the `localizations` key, a
relation actually named `localizations` overwriting that entry. -/
def getPagesQuery (config : SitemapConfig) (meta : CTMeta) (contentType : String)
    (id : Option Nat) : Except QueryError FetchSpec :=
  match computeExcludeDrafts config meta with
  | Except.error e => Except.error e
  | Except.ok excludeDrafts =>
    let isLocalized := computeIsLocalized meta
    let ctConfig := jsObjGet config.contentTypes contentType
    match getRelationsFromConfig ctConfig with
    | Except.error e => Except.error e
    | Except.ok relations =>
      match getFieldsFromConfig ctConfig true isLocalized none with
      | Except.error e => Except.error e
      | Except.ok fields =>
        let filters := buildPageFilters excludeDrafts id
        let populate := relations.foldl
          (fun obj p => jsObjSet obj p.1 (PopulateEntry.rel p.2.fields))
          [("localizations", PopulateEntry.localizations fields relations)]
        Except.ok
          { whereFilters := filters
            filters := filters
            locale := "all"
            fields := fields
            populate := populate
            orderBy := "id" }

/-! ## Persistence operations (query.js lines 134-264)

The entity service is a table of records with unique auto-incremented
primary ids; a store state is the record list in insertion order plus the
next fresh id. `findMany` with a filter returns the matching records in
store order; `delete` removes a record by id; `create` appends a new record
with a fresh id; `update` rewrites the record with the given id in
place. -/

/-- One row of the `plugin::sitemap.sitemap` table. -/
structure SitemapRecord where
  id : Nat
  name : String
  delta : Nat
  sitemap_string : String
deriving DecidableEq, Repr

/-- The `plugin::sitemap.sitemap` table. -/
structure SitemapStore where
  records : List SitemapRecord
  nextId : Nat
deriving DecidableEq, Repr

/-- `entityService.delete('plugin::sitemap.sitemap', id)`. -/
def sitemapDeleteById (s : SitemapStore) (i : Nat) : SitemapStore :=
  { s with records := s.records.filter (fun r => !(r.id == i)) }

/-- `createSitemap(sitemapString, name, delta)` (query.js lines 134-154):
find the records filtered by `{ name, delta }`, delete the first one if it
exists, then create the new row. -/
def createSitemap (s : SitemapStore) (sitemapString name : String) (delta : Nat) : SitemapStore :=
  let found := s.records.filter (fun r => r.name == name && r.delta == delta)
  let s1 := match found.head? with
    | some r => sitemapDeleteById s r.id
    | none => s
  { records := s1.records ++ [⟨s1.nextId, name, delta, sitemapString⟩]
    nextId := s1.nextId + 1 }

/-- `getSitemap(name, delta)` (query.js lines 164-173): the first record
matching `{ name, delta }`, or its absence. -/
def getSitemap (s : SitemapStore) (name : String) (delta : Nat) : Option SitemapRecord :=
  (s.records.filter (fun r => r.name == name && r.delta == delta)).head?

/-- `deleteSitemap(name)` (query.js lines 182-193): find all records
matching `{ name }` and delete each one by id. -/
def deleteSitemap (s : SitemapStore) (name : String) : SitemapStore :=
  (s.records.filter (fun r => r.name == name)).foldl (fun st r => sitemapDeleteById st r.id) s

/-- One row of the `plugin::sitemap.sitemap-cache` table. -/
structure CacheRecord where
  id : Nat
  name : String
  sitemap_json : String
deriving DecidableEq, Repr

/-- The `plugin::sitemap.sitemap-cache` table. -/
structure CacheStore where
  records : List CacheRecord
  nextId : Nat
deriving DecidableEq, Repr

/-- `entityService.delete('plugin::sitemap.sitemap-cache', id)`. -/
def cacheDeleteById (s : CacheStore) (i : Nat) : CacheStore :=
  { s with records := s.records.filter (fun r => !(r.id == i)) }

/-- `createSitemapCache(sitemapJson, name)` (query.js lines 203-221): find
the records filtered by `{ name }`, delete the first one if it exists, then
create the new row. -/
def createSitemapCache (s : CacheStore) (sitemapJson name : String) : CacheStore :=
  let found := s.records.filter (fun r => r.name == name)
  let s1 := match found.head? with
    | some r => cacheDeleteById s r.id
    | none => s
  { records := s1.records ++ [⟨s1.nextId, name, sitemapJson⟩]
    nextId := s1.nextId + 1 }

/-- `updateSitemapCache(sitemapJson, name)` (query.js lines 231-247): find
the records filtered by `{ name }`; if a first one exists, update it in
place; otherwise do nothing. -/
def updateSitemapCache (s : CacheStore) (sitemapJson name : String) : CacheStore :=
  let found := s.records.filter (fun r => r.name == name)
  match found.head? with
  | some r =>
    { s with records := s.records.map (fun x =>
        if x.id == r.id then { x with sitemap_json := sitemapJson, name := name } else x) }
  | none => s

/-- `getSitemapCache(name)` (query.js lines 256-264): the first record
matching `{ name }`, or its absence. -/
def getSitemapCache (s : CacheStore) (name : String) : Option CacheRecord :=
  (s.records.filter (fun r => r.name == name)).head?

/-- The number of cache records carrying a given name. -/
def cacheCountName (s : CacheStore) (name : String) : Nat :=
  (s.records.filter (fun r => r.name == name)).length

/-- The number of sitemap records carrying a given key `(name, delta)`. -/
def sitemapCountKey (s : SitemapStore) (name : String) (delta : Nat) : Nat :=
  (s.records.filter (fun r => r.name == name && r.delta == delta)).length

/-! ## Helper lemmas -/

theorem mem_jsSetDedupAux {x : String} :
    ∀ {l seen : List String}, x ∈ jsSetDedupAux l seen ↔ x ∈ l ∧ x ∉ seen := by
  intro l
  induction l with
  | nil => simp [jsSetDedupAux]
  | cons a l ih =>
    intro seen
    by_cases ha : a ∈ seen
    · rw [jsSetDedupAux, if_pos ha, ih]
      simp only [List.mem_cons]
      constructor
      · rintro ⟨hm, hs⟩
        exact ⟨Or.inr hm, hs⟩
      · rintro ⟨rfl | hm, hs⟩
        · exact absurd ha hs
        · exact ⟨hm, hs⟩
    · rw [jsSetDedupAux, if_neg ha]
      simp only [List.mem_cons, ih]
      by_cases hxa : x = a
      · subst hxa
        simp [ha]
      · simp [hxa]

theorem mem_jsSetDedup {x : String} {l : List String} : x ∈ jsSetDedup l ↔ x ∈ l := by
  rw [jsSetDedup, mem_jsSetDedupAux]
  simp

theorem jsSetDedupAux_nodup : ∀ (l seen : List String), (jsSetDedupAux l seen).Nodup := by
  intro l
  induction l with
  | nil => intro seen; simp [jsSetDedupAux]
  | cons a l ih =>
    intro seen
    by_cases ha : a ∈ seen
    · rw [jsSetDedupAux, if_pos ha]
      exact ih seen
    · rw [jsSetDedupAux, if_neg ha]
      refine List.nodup_cons.mpr ⟨fun hmem => ?_, ih _⟩
      exact (mem_jsSetDedupAux.mp hmem).2 (List.mem_cons_self _ _)

theorem jsSetDedup_nodup (l : List String) : (jsSetDedup l).Nodup :=
  jsSetDedupAux_nodup l []

theorem mem_jsObjSet {V : Type} {obj : List (String × V)} {k k' : String} {v v' : V}
    (h : (k', v') ∈ jsObjSet obj k v) : (k' = k ∧ v' = v) ∨ (k', v') ∈ obj := by
  unfold jsObjSet at h
  split at h
  · rcases List.mem_map.mp h with ⟨p, hp, heq⟩
    by_cases hk : p.1 = k
    · simp only [hk, if_pos rfl] at heq
      exact Or.inl ⟨(Prod.mk.injEq _ _ _ _ ▸ heq.symm).1.symm ▸ rfl, ((Prod.mk.injEq _ _ _ _).mp heq.symm).2.symm ▸ rfl⟩
    · simp only [if_neg hk] at heq
      exact Or.inr (heq ▸ hp)
  · rcases List.mem_append.mp h with hl | hr
    · exact Or.inr hl
    · simp at hr
      exact Or.inl hr

/-- Every successful `getFieldsFromConfig` result is the `Set` dedup of the
per-language pattern fields followed by the top-level metadata suffix. -/
theorem getFieldsFromConfig_ok_form (ct : Option CTConfig) (tl isLoc : Bool) (rel : Option String)
    (fs : List String) (h : getFieldsFromConfig ct tl isLoc rel = Except.ok fs) :
    ∃ pfs, fs = jsSetDedup (pfs ++
      (if tl then (if isLoc then ["locale"] else []) ++ ["updatedAt"] else [])) := by
  cases ct with
  | none =>
    refine ⟨[], ?_⟩
    simp only [getFieldsFromConfig, Except.ok.injEq] at h
    rw [← h, List.nil_append]
  | some c =>
    cases hl : c.languages with
    | none =>
      rw [getFieldsFromConfig, hl] at h
      simp at h
    | some langs =>
      cases hf : langFields langs tl rel with
      | error e => simp [getFieldsFromConfig, hl, hf] at h
      | ok pfs =>
        simp only [getFieldsFromConfig, hl, hf, Except.ok.injEq] at h
        exact ⟨pfs, h.symm⟩

/-- C1 (amended): for every content-type config whose aggregation succeeds,
the result of `getFieldsFromConfig` with `topLevel = true` contains
`updatedAt`, contains `locale` whenever `isLocalized` is true, and is the
deduplication of the per-language pattern fields followed by the appended
metadata fields (`locale` when localized, then `updatedAt`). The converse
direction of the original "if and only if" fails: with `isLocalized` false
the result still contains `locale` when a pattern references it. -/
theorem getFieldsFromConfig_topLevel_metadata (ct : Option CTConfig) (isLoc : Bool)
    (rel : Option String) (fs : List String)
    (h : getFieldsFromConfig ct true isLoc rel = Except.ok fs) :
    "updatedAt" ∈ fs ∧ (isLoc = true → "locale" ∈ fs) ∧
      ∃ pfs, fs = jsSetDedup (pfs ++ ((if isLoc then ["locale"] else []) ++ ["updatedAt"])) := by
  obtain ⟨pfs, rfl⟩ := getFieldsFromConfig_ok_form ct true isLoc rel fs h
  refine ⟨?_, ?_, ⟨pfs, by simp⟩⟩
  · rw [mem_jsSetDedup]
    simp
  · intro hiso
    rw [mem_jsSetDedup]
    simp [hiso]

/-- Witness for C1 at a concrete input: the absent config with
`isLocalized = true`. -/
theorem getFieldsFromConfig_topLevel_metadata_witness :
    getFieldsFromConfig none true true none = Except.ok ["locale", "updatedAt"] ∧
      ("updatedAt" ∈ (["locale", "updatedAt"] : List String) ∧
        (true = true → "locale" ∈ (["locale", "updatedAt"] : List String)) ∧
        ∃ pfs, (["locale", "updatedAt"] : List String)
          = jsSetDedup (pfs ++ ((if true then ["locale"] else []) ++ ["updatedAt"]))) :=
  ⟨by decide, getFieldsFromConfig_topLevel_metadata none true none ["locale", "updatedAt"] (by decide)⟩

/-- C1 counterexample: with `isLocalized = false` and a single language
whose pattern references the field `locale`, the returned sequence contains
`locale` although `isLocalized` is false, refuting the "only if" direction
of the claim. -/
theorem getFieldsFromConfig_locale_without_isLocalized :
    getFieldsFromConfig (some ⟨some [("en", ⟨"/[locale]"⟩)]⟩) true false none
        = Except.ok ["locale", "updatedAt"] ∧
      "locale" ∈ (["locale", "updatedAt"] : List String) :=
  ⟨by decide, by decide⟩

/-- C2: every successful `getFieldsFromConfig` result, for every
combination of `topLevel`, `isLocalized` and relation arguments, contains
no repeated value. -/
theorem getFieldsFromConfig_nodup (ct : Option CTConfig) (tl isLoc : Bool) (rel : Option String)
    (fs : List String) (h : getFieldsFromConfig ct tl isLoc rel = Except.ok fs) : fs.Nodup := by
  obtain ⟨pfs, rfl⟩ := getFieldsFromConfig_ok_form ct tl isLoc rel fs h
  exact jsSetDedup_nodup _

/-- Witness for C2 at a concrete input: two languages whose patterns
reference the same field `title`. -/
theorem getFieldsFromConfig_nodup_witness :
    getFieldsFromConfig (some ⟨some [("en", ⟨"/[title]"⟩), ("fr", ⟨"/[title]"⟩)]⟩) true false none
        = Except.ok ["title", "updatedAt"] ∧
      (["title", "updatedAt"] : List String).Nodup :=
  ⟨by decide,
    getFieldsFromConfig_nodup (some ⟨some [("en", ⟨"/[title]"⟩), ("fr", ⟨"/[title]"⟩)]⟩)
      true false none ["title", "updatedAt"] (by decide)⟩

/-- C4 (amended): `getFieldsFromConfig` is total over an absent config and
over a present config with an empty `languages` mapping, returning only the
appended metadata fields (the empty sequence when `topLevel` is false); but
a present config whose `languages` property is missing raises a
`TypeError` (`Object.entries(undefined)`). -/
theorem getFieldsFromConfig_partial_config (tl isLoc : Bool) (rel : Option String) :
    getFieldsFromConfig none tl isLoc rel
        = Except.ok (if tl then (if isLoc then ["locale", "updatedAt"] else ["updatedAt"]) else [])
      ∧ getFieldsFromConfig (some ⟨some []⟩) tl isLoc rel
        = Except.ok (if tl then (if isLoc then ["locale", "updatedAt"] else ["updatedAt"]) else [])
      ∧ getFieldsFromConfig (some ⟨none⟩) tl isLoc rel = Except.error .typeError := by
  cases tl <;> cases isLoc <;> exact ⟨rfl, rfl, rfl⟩

/-- C4 counterexample: a present config whose `languages` property is
missing makes `getFieldsFromConfig` raise a `TypeError` instead of
returning an empty sequence. -/
theorem getFieldsFromConfig_missing_languages_throws :
    getFieldsFromConfig (some ⟨none⟩) false false none = Except.error .typeError := by decide

/-- Invariant of the inner relation loop: every entry of a successful
`addRels` result is either an entry that was already in the object, or one
of the relations of the processed list together with its scoped field
list. -/
theorem addRels_mem (ct : Option CTConfig) :
    ∀ (rels : List String) (obj obj' : List (String × RelEntry)),
      addRels ct rels obj = Except.ok obj' →
      ∀ k e, (k, e) ∈ obj' →
        (k, e) ∈ obj ∨
          (k ∈ rels ∧ getFieldsFromConfig ct false false (some k) = Except.ok e.fields) := by
  intro rels
  induction rels with
  | nil =>
    intro obj obj' h k e hm
    simp only [addRels, Except.ok.injEq] at h
    exact Or.inl (h ▸ hm)
  | cons rel rest ih =>
    intro obj obj' h k e hm
    cases hg : getFieldsFromConfig ct false false (some rel) with
    | error er => simp [addRels, hg] at h
    | ok fs =>
      simp only [addRels, hg] at h
      rcases ih (jsObjSet obj rel ⟨fs⟩) obj' h k e hm with hin | ⟨hk, hf⟩
      · rcases mem_jsObjSet hin with ⟨rfl, rfl⟩ | hold
        · exact Or.inr ⟨List.mem_cons_self _ _, hg⟩
        · exact Or.inl hold
      · exact Or.inr ⟨List.mem_cons_of_mem _ hk, hf⟩

/-- Invariant of the per-language loop: every entry of a successful
`relObjForLangs` result is either an entry of the initial object, or a
relation found in the pattern of one of the processed languages, with its
field list computed by the scoped aggregation over the whole config. -/
theorem relObjForLangs_mem (ct : Option CTConfig) :
    ∀ (langs : List (String × LangConfig)) (obj obj' : List (String × RelEntry)),
      relObjForLangs ct langs obj = Except.ok obj' →
      ∀ k e, (k, e) ∈ obj' →
        (k, e) ∈ obj ∨
          (getFieldsFromConfig ct false false (some k) = Except.ok e.fields ∧
            ∃ code lc rels, (code, lc) ∈ langs ∧
              getRelationsFromPattern lc.pattern = Except.ok rels ∧ k ∈ rels) := by
  intro langs
  induction langs with
  | nil =>
    intro obj obj' h k e hm
    simp only [relObjForLangs, Except.ok.injEq] at h
    exact Or.inl (h ▸ hm)
  | cons langEntry rest ih =>
    intro obj obj' h k e hm
    obtain ⟨code, lc⟩ := langEntry
    cases hr : getRelationsFromPattern lc.pattern with
    | error er => simp [relObjForLangs, hr] at h
    | ok rels =>
      cases ha : addRels ct rels obj with
      | error er => simp [relObjForLangs, hr, ha] at h
      | ok obj1 =>
        simp only [relObjForLangs, hr, ha] at h
        rcases ih obj1 obj' h k e hm with hin | ⟨hf, code', lc', rels', hl, hr', hk⟩
        · rcases addRels_mem ct rels obj obj1 ha k e hin with hold | ⟨hk, hf⟩
          · exact Or.inl hold
          · exact Or.inr ⟨hf, code, lc, rels, List.mem_cons_self _ _, hr, hk⟩
        · exact Or.inr ⟨hf, code', lc', rels', List.mem_cons_of_mem _ hl, hr', hk⟩

/-- C3: in every successful `getRelationsFromConfig` result, every relation
key's field list is exactly the scoped `getFieldsFromConfig` run over the
whole config (hence the union over every language's pattern), and every
relation key comes from a relation token present in at least one language's
pattern. -/
theorem getRelationsFromConfig_spec (ct : Option CTConfig) (obj : List (String × RelEntry))
    (h : getRelationsFromConfig ct = Except.ok obj) :
    ∀ k e, (k, e) ∈ obj →
      getFieldsFromConfig ct false false (some k) = Except.ok e.fields ∧
        ∃ c langs code lc rels, ct = some c ∧ c.languages = some langs ∧
          (code, lc) ∈ langs ∧ getRelationsFromPattern lc.pattern = Except.ok rels ∧ k ∈ rels := by
  intro k e hm
  cases ct with
  | none =>
    simp only [getRelationsFromConfig, Except.ok.injEq] at h
    rw [← h] at hm
    simp at hm
  | some c =>
    cases hl : c.languages with
    | none => simp [getRelationsFromConfig, hl] at h
    | some langs =>
      simp only [getRelationsFromConfig, hl] at h
      rcases relObjForLangs_mem (some c) langs [] obj h k e hm with hin | ⟨hf, code, lc, rels, hlm, hr, hk⟩
      · simp at hin
      · exact ⟨hf, c, langs, code, lc, rels, rfl, hl, hlm, hr, hk⟩

/-- Witness for C3 at a concrete input: the relation `cat` appears only via
the two languages' patterns and receives the union of its fields across
both languages. -/
theorem getRelationsFromConfig_spec_witness :
    getFieldsFromConfig (some ⟨some [("en", ⟨"/a/[cat.name]"⟩), ("fr", ⟨"/b/[cat.title]"⟩)]⟩)
        false false (some "cat") = Except.ok (RelEntry.mk ["name", "title"]).fields ∧
      ∃ c langs code lc rels,
        (some (CTConfig.mk (some [("en", ⟨"/a/[cat.name]"⟩), ("fr", ⟨"/b/[cat.title]"⟩)]))) = some c ∧
          c.languages = some langs ∧ (code, lc) ∈ langs ∧
          getRelationsFromPattern lc.pattern = Except.ok rels ∧ "cat" ∈ rels :=
  getRelationsFromConfig_spec
    (some ⟨some [("en", ⟨"/a/[cat.name]"⟩), ("fr", ⟨"/b/[cat.title]"⟩)]⟩)
    [("cat", ⟨["name", "title"]⟩)] (by decide) "cat" ⟨["name", "title"]⟩ (by decide)

/-- Decomposition of a successful `getPagesQuery` run into its parts. -/
theorem getPagesQuery_ok_parts (config : SitemapConfig) (meta : CTMeta) (ctUid : String)
    (id : Option Nat) (q : FetchSpec) (h : getPagesQuery config meta ctUid id = Except.ok q) :
    ∃ ed rels fs,
      computeExcludeDrafts config meta = Except.ok ed ∧
      getRelationsFromConfig (jsObjGet config.contentTypes ctUid) = Except.ok rels ∧
      getFieldsFromConfig (jsObjGet config.contentTypes ctUid) true (computeIsLocalized meta) none
        = Except.ok fs ∧
      q = { whereFilters := buildPageFilters ed id
            filters := buildPageFilters ed id
            locale := "all"
            fields := fs
            populate := rels.foldl (fun obj p => jsObjSet obj p.1 (PopulateEntry.rel p.2.fields))
              [("localizations", PopulateEntry.localizations fs rels)]
            orderBy := "id" } := by
  cases he : computeExcludeDrafts config meta with
  | error e => simp [getPagesQuery, he] at h
  | ok ed =>
    cases hr : getRelationsFromConfig (jsObjGet config.contentTypes ctUid) with
    | error e => simp [getPagesQuery, he, hr] at h
    | ok rels =>
      cases hf : getFieldsFromConfig (jsObjGet config.contentTypes ctUid) true
          (computeIsLocalized meta) none with
      | error e => simp [getPagesQuery, he, hr, hf] at h
      | ok fs =>
        refine ⟨ed, rels, fs, rfl, rfl, rfl, ?_⟩
        simp only [getPagesQuery, he, hr, hf, Except.ok.injEq] at h
        exact h.symm

/-- The Boolean `excludeDrafts` of `getPages`, when its computation does
not throw, is the conjunction of the config flag and the (defaulted)
draft-and-publish metadata flag. -/
theorem computeExcludeDrafts_ok (config : SitemapConfig) (meta : CTMeta) (b : Bool)
    (h : computeExcludeDrafts config meta = Except.ok b) :
    b = (config.excludeDrafts && (meta.options.bind (fun o => o.draftAndPublish)).getD false) := by
  by_cases hc : config.excludeDrafts = true
  · cases ho : meta.options with
    | none => simp [computeExcludeDrafts, hc, ho] at h
    | some o =>
      simp only [computeExcludeDrafts, hc, ho, if_true, Except.ok.injEq] at h
      simp [← h, hc, ho]
  · simp only [Bool.not_eq_true] at hc
    simp only [computeExcludeDrafts, hc, Bool.false_eq_true, if_false, Except.ok.injEq] at h
    simp [← h, hc]

/-- Semantics of the constructed filter object on one record. -/
theorem matchesFilters_buildPageFilters (ed : Bool) (id : Option Nat) (r : PageRecord) :
    matchesFilters (buildPageFilters ed id) r = true ↔
      ((r.sitemap_exclude = none ∨ r.sitemap_exclude = some false) ∧
        (∀ i, id = some i → i ≠ 0 → r.id = i) ∧
        (ed = true → r.published_at ≠ none)) := by
  cases id with
  | none => cases ed <;> simp [matchesFilters, buildPageFilters, Option.filter]
  | some i =>
    by_cases hi : i = 0
    · subst hi
      cases ed <;> simp [matchesFilters, buildPageFilters, Option.filter]
    · cases ed
      · simp [matchesFilters, buildPageFilters, Option.filter, hi]
      · simp [matchesFilters, buildPageFilters, Option.filter, hi]
        tauto

/-- C5 (amended): for every successful `getPages` assembly, the produced
filter matches a record exactly when its exclusion flag is absent or false,
its identifier equals the given id whenever the id argument is given and
nonzero (JS truthiness: `id ? { $eq: id } : {}` drops an id of `0`), and
its published timestamp is non-null whenever draft exclusion is configured
and the content type supports draft/publish. -/
theorem getPages_filter_spec (config : SitemapConfig) (meta : CTMeta) (ctUid : String)
    (id : Option Nat) (q : FetchSpec) (r : PageRecord)
    (h : getPagesQuery config meta ctUid id = Except.ok q) :
    matchesFilters q.filters r = true ↔
      ((r.sitemap_exclude = none ∨ r.sitemap_exclude = some false) ∧
        (∀ i, id = some i → i ≠ 0 → r.id = i) ∧
        ((config.excludeDrafts = true ∧
            (meta.options.bind (fun o => o.draftAndPublish)).getD false = true) →
          r.published_at ≠ none)) := by
  obtain ⟨ed, rels, fs, he, hr, hf, rfl⟩ := getPagesQuery_ok_parts config meta ctUid id q h
  have hed := computeExcludeDrafts_ok config meta ed he
  rw [show (FetchSpec.mk (buildPageFilters ed id) (buildPageFilters ed id) "all" fs
      (rels.foldl (fun obj p => jsObjSet obj p.1 (PopulateEntry.rel p.2.fields))
        [("localizations", PopulateEntry.localizations fs rels)]) "id").filters
      = buildPageFilters ed id from rfl]
  rw [matchesFilters_buildPageFilters, hed]
  simp [Bool.and_eq_true]

/-- Witness for C5 at a concrete input: `id = 42`, draft exclusion
configured and supported, a record with identifier 42, no exclusion flag
and a published timestamp. -/
theorem getPages_filter_spec_witness :
    matchesFilters (PageFilters.mk (some 42) true) (PageRecord.mk 42 none (some 5)) = true ↔
      (((none : Option Bool) = none ∨ (none : Option Bool) = some false) ∧
        (∀ i, some 42 = some i → i ≠ 0 → (42 : Nat) = i) ∧
        ((true = true ∧
            ((some (OptionsObj.mk (some true))).bind (fun o => o.draftAndPublish)).getD false
              = true) →
          (some 5 : Option Nat) ≠ none)) :=
  getPages_filter_spec ⟨true, []⟩ ⟨some ⟨some true⟩, none⟩ "api::page.page" (some 42)
    (FetchSpec.mk ⟨some 42, true⟩ ⟨some 42, true⟩ "all" ["updatedAt"]
      [("localizations", PopulateEntry.localizations ["updatedAt"] [])] "id")
    ⟨42, none, some 5⟩ (by decide)

/-- C5 counterexample: with the id argument given as `0` (a falsy number in
JS), the assembled filter carries an empty id clause and matches a record
whose identifier is 1, so the produced predicate does not require the
identifier to equal the given id. -/
theorem getPages_filter_ignores_zero_id :
    getPagesQuery ⟨false, []⟩ ⟨some ⟨some false⟩, none⟩ "api::page.page" (some 0)
        = Except.ok (FetchSpec.mk ⟨none, false⟩ ⟨none, false⟩ "all" ["updatedAt"]
            [("localizations", PopulateEntry.localizations ["updatedAt"] [])] "id") ∧
      matchesFilters ⟨none, false⟩ ⟨1, none, none⟩ = true ∧ (1 : Nat) ≠ 0 :=
  ⟨by decide, by decide, by decide⟩

/-- C6: when the runtime metadata carries an `options` object without the
`draftAndPublish` flag and no `localized` flag anywhere along
`pluginOptions?.i18n?.localized`, the flag computations of `getPages`
return `false` without raising, and the whole assembly behaves exactly as
if both flags were explicitly `false`. -/
theorem getPages_missing_flags (config : SitemapConfig) (meta : CTMeta) (ctUid : String)
    (id : Option Nat) (o : OptionsObj)
    (hop : meta.options = some o) (hdp : o.draftAndPublish = none)
    (hloc : (meta.pluginOptions.bind (fun p => p.i18n)).bind (fun i => i.localized) = none) :
    computeExcludeDrafts config meta = Except.ok false ∧
      computeIsLocalized meta = false ∧
      getPagesQuery config meta ctUid id
        = getPagesQuery config ⟨some ⟨some false⟩, some ⟨some ⟨some false⟩⟩⟩ ctUid id := by
  have h1 : computeExcludeDrafts config meta = Except.ok false := by
    by_cases hc : config.excludeDrafts = true
    · simp [computeExcludeDrafts, hc, hop, hdp]
    · simp only [Bool.not_eq_true] at hc
      simp [computeExcludeDrafts, hc]
  have h2 : computeIsLocalized meta = false := by
    simp [computeIsLocalized, hloc]
  have h1' : computeExcludeDrafts config ⟨some ⟨some false⟩, some ⟨some ⟨some false⟩⟩⟩
      = Except.ok false := by
    by_cases hc : config.excludeDrafts = true
    · simp [computeExcludeDrafts, hc]
    · simp only [Bool.not_eq_true] at hc
      simp [computeExcludeDrafts, hc]
  have h2' : computeIsLocalized ⟨some ⟨some false⟩, some ⟨some ⟨some false⟩⟩⟩ = false := rfl
  refine ⟨h1, h2, ?_⟩
  simp only [getPagesQuery, h1, h1', h2, h2']

/-- Witness for C6 at a concrete input: metadata with an empty `options`
object and no `pluginOptions`, with draft exclusion configured. -/
theorem getPages_missing_flags_witness :
    computeExcludeDrafts ⟨true, []⟩ ⟨some ⟨none⟩, none⟩ = Except.ok false ∧
      computeIsLocalized ⟨some ⟨none⟩, none⟩ = false ∧
      getPagesQuery ⟨true, []⟩ ⟨some ⟨none⟩, none⟩ "api::page.page" none
        = getPagesQuery ⟨true, []⟩ ⟨some ⟨some false⟩, some ⟨some ⟨some false⟩⟩⟩
            "api::page.page" none :=
  getPages_missing_flags ⟨true, []⟩ ⟨some ⟨none⟩, none⟩ "api::page.page" none ⟨none⟩
    rfl rfl rfl

/-- Upserting a binding puts it in the object. -/
theorem mem_jsObjSet_self {V : Type} (obj : List (String × V)) (k : String) (v : V) :
    (k, v) ∈ jsObjSet obj k v := by
  unfold jsObjSet
  split
  · next hany =>
    rcases List.any_eq_true.mp hany with ⟨p, hp, hpk⟩
    refine List.mem_map.mpr ⟨p, hp, ?_⟩
    rw [beq_iff_eq] at hpk
    simp [hpk]
  · exact List.mem_append_right _ (List.mem_singleton.mpr rfl)

/-- Upserting under a different key keeps a binding. -/
theorem mem_jsObjSet_of_ne {V : Type} {obj : List (String × V)} {k k' : String} {e : V} (v : V)
    (hm : (k, e) ∈ obj) (hne : k ≠ k') : (k, e) ∈ jsObjSet obj k' v := by
  unfold jsObjSet
  split
  · refine List.mem_map.mpr ⟨(k, e), hm, ?_⟩
    simp [hne]
  · exact List.mem_append_left _ hm

/-- Upserting preserves key uniqueness. -/
theorem jsObjSet_keys_nodup {V : Type} {obj : List (String × V)} {k : String} {v : V}
    (h : (obj.map Prod.fst).Nodup) : ((jsObjSet obj k v).map Prod.fst).Nodup := by
  unfold jsObjSet
  split
  · next hany =>
    have hkeys : (obj.map (fun p => if p.1 = k then (k, v) else p)).map Prod.fst
        = obj.map Prod.fst := by
      rw [List.map_map]
      apply List.map_congr_left
      intro p hp
      by_cases hpk : p.1 = k
      · simp [hpk]
      · simp [hpk]
    rw [hkeys]
    exact h
  · next hany =>
    rw [List.map_append]
    refine List.Nodup.append h (List.nodup_singleton k) ?_
    intro a ha hb
    simp only [List.map_cons, List.map_nil, List.mem_singleton] at hb
    subst hb
    rcases List.mem_map.mp ha with ⟨p, hp, rfl⟩
    exact hany (List.any_eq_true.mpr ⟨p, hp, by simp⟩)

/-- The inner relation loop preserves key uniqueness of the object. -/
theorem addRels_keys_nodup (ct : Option CTConfig) :
    ∀ (rels : List String) (obj obj' : List (String × RelEntry)),
      addRels ct rels obj = Except.ok obj' → (obj.map Prod.fst).Nodup →
      (obj'.map Prod.fst).Nodup := by
  intro rels
  induction rels with
  | nil =>
    intro obj obj' h hnd
    simp only [addRels, Except.ok.injEq] at h
    exact h ▸ hnd
  | cons rel rest ih =>
    intro obj obj' h hnd
    cases hg : getFieldsFromConfig ct false false (some rel) with
    | error er => simp [addRels, hg] at h
    | ok fs =>
      simp only [addRels, hg] at h
      exact ih _ obj' h (jsObjSet_keys_nodup hnd)

/-- The per-language loop preserves key uniqueness of the object. -/
theorem relObjForLangs_keys_nodup (ct : Option CTConfig) :
    ∀ (langs : List (String × LangConfig)) (obj obj' : List (String × RelEntry)),
      relObjForLangs ct langs obj = Except.ok obj' → (obj.map Prod.fst).Nodup →
      (obj'.map Prod.fst).Nodup := by
  intro langs
  induction langs with
  | nil =>
    intro obj obj' h hnd
    simp only [relObjForLangs, Except.ok.injEq] at h
    exact h ▸ hnd
  | cons langEntry rest ih =>
    intro obj obj' h hnd
    obtain ⟨code, lc⟩ := langEntry
    cases hr : getRelationsFromPattern lc.pattern with
    | error er => simp [relObjForLangs, hr] at h
    | ok rels =>
      cases ha : addRels ct rels obj with
      | error er => simp [relObjForLangs, hr, ha] at h
      | ok obj1 =>
        simp only [relObjForLangs, hr, ha] at h
        exact ih obj1 obj' h (addRels_keys_nodup ct rels obj obj1 ha hnd)

/-- The relation map built by `getRelationsFromConfig` has unique keys. -/
theorem getRelationsFromConfig_keys_nodup (ct : Option CTConfig)
    (obj : List (String × RelEntry)) (h : getRelationsFromConfig ct = Except.ok obj) :
    (obj.map Prod.fst).Nodup := by
  cases ct with
  | none =>
    simp only [getRelationsFromConfig, Except.ok.injEq] at h
    simp [← h]
  | some c =>
    cases hl : c.languages with
    | none => simp [getRelationsFromConfig, hl] at h
    | some langs =>
      simp only [getRelationsFromConfig, hl] at h
      exact relObjForLangs_keys_nodup (some c) langs [] obj h (by simp)

/-- A binding whose key is not among the spread keys survives the whole
spread. -/
theorem foldl_spreadRel_stays :
    ∀ (rest : List (String × RelEntry)) (init : List (String × PopulateEntry)) (k : String)
      (x : PopulateEntry), (k, x) ∈ init → k ∉ rest.map Prod.fst →
      (k, x) ∈ rest.foldl (fun obj p => jsObjSet obj p.1 (PopulateEntry.rel p.2.fields)) init := by
  intro rest
  induction rest with
  | nil =>
    intro init k x hm _
    simpa using hm
  | cons p ps ih =>
    intro init k x hm hk
    simp only [List.map_cons, List.mem_cons, not_or] at hk
    obtain ⟨hk1, hk2⟩ := hk
    rw [List.foldl_cons]
    exact ih _ k x (mem_jsObjSet_of_ne _ hm hk1) hk2

/-- After spreading a unique-keyed relation map over the populate object,
every relation has its populate instruction in the result. -/
theorem foldl_spreadRel_mem :
    ∀ (relations : List (String × RelEntry)) (init : List (String × PopulateEntry)),
      (relations.map Prod.fst).Nodup → ∀ k e, (k, e) ∈ relations →
      (k, PopulateEntry.rel e.fields)
        ∈ relations.foldl (fun obj p => jsObjSet obj p.1 (PopulateEntry.rel p.2.fields)) init := by
  intro relations
  induction relations with
  | nil =>
    intro init _ k e hm
    simp at hm
  | cons p ps ih =>
    intro init hnd k e hm
    obtain ⟨pk, pe⟩ := p
    simp only [List.map_cons, List.nodup_cons] at hnd
    obtain ⟨hpk, hnd'⟩ := hnd
    rw [List.foldl_cons]
    rcases List.mem_cons.mp hm with heq | hmem
    · obtain ⟨rfl, rfl⟩ := Prod.mk.injEq .. ▸ heq
      exact foldl_spreadRel_stays ps _ k (PopulateEntry.rel e.fields)
        (mem_jsObjSet_self _ _ _) hpk
    · exact ih _ hnd' k e hmem

/-- C7 (amended): every successful `getPages` assembly requests all locales
(`locale = "all"`), the field list computed by the aggregator with
`topLevel = true`, order by id, and a populate instruction for every
relation of the computed relation map; and — provided no relation is itself
named `localizations` — a `localizations` populate entry carrying the same
fields and the same relation populate map. (When a pattern names a relation
`localizations`, the object spread `{ localizations: {...}, ...relations }`
overwrites that entry, refuting the unconditional claim.) -/
theorem getPages_fetchspec (config : SitemapConfig) (meta : CTMeta) (ctUid : String)
    (id : Option Nat) (q : FetchSpec) (rels : List (String × RelEntry)) (fs : List String)
    (hrel : getRelationsFromConfig (jsObjGet config.contentTypes ctUid) = Except.ok rels)
    (hf : getFieldsFromConfig (jsObjGet config.contentTypes ctUid) true
        (computeIsLocalized meta) none = Except.ok fs)
    (h : getPagesQuery config meta ctUid id = Except.ok q) :
    q.locale = "all" ∧ q.fields = fs ∧ q.orderBy = "id" ∧
      (∀ k e, (k, e) ∈ rels → (k, PopulateEntry.rel e.fields) ∈ q.populate) ∧
      ("localizations" ∉ rels.map Prod.fst →
        ("localizations", PopulateEntry.localizations fs rels) ∈ q.populate) := by
  obtain ⟨ed, rels', fs', he, hr', hf', rfl⟩ := getPagesQuery_ok_parts config meta ctUid id q h
  have hre : rels' = rels := by
    have h2 := hr'.symm.trans hrel
    simpa using h2
  have hfe : fs' = fs := by
    have h2 := hf'.symm.trans hf
    simpa using h2
  subst hre
  subst hfe
  refine ⟨rfl, rfl, rfl, ?_, ?_⟩
  · intro k e hm
    exact foldl_spreadRel_mem _ _ (getRelationsFromConfig_keys_nodup _ _ hrel) k e hm
  · intro hnl
    exact foldl_spreadRel_stays _ _ "localizations" _ (List.mem_singleton.mpr rfl) hnl

/-- Witness for C7 at a concrete input: one language with pattern
`/p/[title]/[cat.name]`, a localized draft-aware content type. -/
theorem getPages_fetchspec_witness :
    (FetchSpec.mk ⟨some 42, true⟩ ⟨some 42, true⟩ "all" ["title", "locale", "updatedAt"]
        [("localizations", PopulateEntry.localizations ["title", "locale", "updatedAt"]
            [("cat", ⟨["name"]⟩)]),
          ("cat", PopulateEntry.rel ["name"])] "id").locale = "all" ∧
      (FetchSpec.mk ⟨some 42, true⟩ ⟨some 42, true⟩ "all" ["title", "locale", "updatedAt"]
        [("localizations", PopulateEntry.localizations ["title", "locale", "updatedAt"]
            [("cat", ⟨["name"]⟩)]),
          ("cat", PopulateEntry.rel ["name"])] "id").fields = ["title", "locale", "updatedAt"] ∧
      (FetchSpec.mk ⟨some 42, true⟩ ⟨some 42, true⟩ "all" ["title", "locale", "updatedAt"]
        [("localizations", PopulateEntry.localizations ["title", "locale", "updatedAt"]
            [("cat", ⟨["name"]⟩)]),
          ("cat", PopulateEntry.rel ["name"])] "id").orderBy = "id" ∧
      (∀ k e, (k, e) ∈ ([("cat", ⟨["name"]⟩)] : List (String × RelEntry)) →
        (k, PopulateEntry.rel e.fields)
          ∈ (FetchSpec.mk ⟨some 42, true⟩ ⟨some 42, true⟩ "all" ["title", "locale", "updatedAt"]
              [("localizations", PopulateEntry.localizations ["title", "locale", "updatedAt"]
                  [("cat", ⟨["name"]⟩)]),
                ("cat", PopulateEntry.rel ["name"])] "id").populate) ∧
      ("localizations" ∉ ([("cat", ⟨["name"]⟩)] : List (String × RelEntry)).map Prod.fst →
        ("localizations", PopulateEntry.localizations ["title", "locale", "updatedAt"]
            [("cat", ⟨["name"]⟩)])
          ∈ (FetchSpec.mk ⟨some 42, true⟩ ⟨some 42, true⟩ "all" ["title", "locale", "updatedAt"]
              [("localizations", PopulateEntry.localizations ["title", "locale", "updatedAt"]
                  [("cat", ⟨["name"]⟩)]),
                ("cat", PopulateEntry.rel ["name"])] "id").populate) :=
  getPages_fetchspec
    ⟨true, [("api::page.page", ⟨some [("en", ⟨"/p/[title]/[cat.name]"⟩)]⟩)]⟩
    ⟨some ⟨some true⟩, some ⟨some ⟨some true⟩⟩⟩ "api::page.page" (some 42)
    (FetchSpec.mk ⟨some 42, true⟩ ⟨some 42, true⟩ "all" ["title", "locale", "updatedAt"]
      [("localizations", PopulateEntry.localizations ["title", "locale", "updatedAt"]
          [("cat", ⟨["name"]⟩)]),
        ("cat", PopulateEntry.rel ["name"])] "id")
    [("cat", ⟨["name"]⟩)] ["title", "locale", "updatedAt"]
    (by decide) (by decide) (by decide)

/-- C7 counterexample: with a pattern referencing the relation name
`localizations`, the spread `...relations` overwrites the `localizations`
populate entry, so the assembled specification carries no entry mirroring
the top-level fields and relation map. -/
theorem getPages_localizations_overridden :
    getPagesQuery ⟨false, [("api::page.page", ⟨some [("en", ⟨"/p/[localizations.slug]"⟩)]⟩)]⟩
        ⟨some ⟨some true⟩, none⟩ "api::page.page" none
      = Except.ok (FetchSpec.mk ⟨none, false⟩ ⟨none, false⟩ "all" ["updatedAt"]
          [("localizations", PopulateEntry.rel ["slug"])] "id") := by decide

/-- One `createSitemapCache` call leaves exactly one record with the given
name, provided the store held at most one before. -/
theorem createSitemapCache_count (s : CacheStore) (j name : String)
    (h : cacheCountName s name ≤ 1) :
    cacheCountName (createSitemapCache s j name) name = 1 := by
  unfold cacheCountName at *
  cases hfl : s.records.filter (fun r => r.name == name) with
  | nil =>
    simp only [createSitemapCache, hfl, List.head?_nil]
    rw [List.filter_append, hfl]
    simp
  | cons r rest =>
    rw [hfl] at h
    have hrest : rest = [] := by
      cases rest with
      | nil => rfl
      | cons a t => simp at h
    subst hrest
    simp only [createSitemapCache, hfl, List.head?_cons, cacheDeleteById]
    rw [List.filter_append, List.filter_filter]
    have hcomm : List.filter (fun a => (a.name == name) && !(a.id == r.id)) s.records
        = List.filter (fun a => !(a.id == r.id)) (List.filter (fun a => a.name == name) s.records) := by
      rw [List.filter_filter]
      exact List.filter_congr (fun x _ => Bool.and_comm _ _)
    rw [hcomm, hfl]
    simp

/-- One `createSitemap` call leaves exactly one record with the given
`(name, delta)` key, provided the store held at most one before. -/
theorem createSitemap_count (t : SitemapStore) (str name : String) (delta : Nat)
    (h : sitemapCountKey t name delta ≤ 1) :
    sitemapCountKey (createSitemap t str name delta) name delta = 1 := by
  unfold sitemapCountKey at *
  cases hfl : t.records.filter (fun r => r.name == name && r.delta == delta) with
  | nil =>
    simp only [createSitemap, hfl, List.head?_nil]
    rw [List.filter_append, hfl]
    simp
  | cons r rest =>
    rw [hfl] at h
    have hrest : rest = [] := by
      cases rest with
      | nil => rfl
      | cons a t' => simp at h
    subst hrest
    simp only [createSitemap, hfl, List.head?_cons, sitemapDeleteById]
    rw [List.filter_append, List.filter_filter]
    have hcomm : List.filter (fun a => (a.name == name && a.delta == delta) && !(a.id == r.id)) t.records
        = List.filter (fun a => !(a.id == r.id))
            (List.filter (fun a => a.name == name && a.delta == delta) t.records) := by
      rw [List.filter_filter]
      exact List.filter_congr (fun x _ => Bool.and_comm _ _)
    rw [hcomm, hfl]
    simp

/-- C8 (amended): starting from a store holding at most one record under
the key, two successive create calls with the same key leave exactly one
record for that key — for `createSitemapCache` under `name` and for
`createSitemap` under `(name, delta)`. (Each call deletes only the first
existing record with that key, so from a store already holding two or more
records with the key, duplicates survive, refuting the unconditional
claim.) -/
theorem create_replace_semantics (s : CacheStore) (t : SitemapStore)
    (j1 j2 str1 str2 name : String) (delta : Nat)
    (hc : cacheCountName s name ≤ 1) (hs : sitemapCountKey t name delta ≤ 1) :
    cacheCountName (createSitemapCache (createSitemapCache s j1 name) j2 name) name = 1 ∧
      sitemapCountKey (createSitemap (createSitemap t str1 name delta) str2 name delta)
          name delta = 1 := by
  constructor
  · exact createSitemapCache_count _ j2 name
      (Nat.le_of_eq (createSitemapCache_count s j1 name hc))
  · exact createSitemap_count _ str2 name delta
      (Nat.le_of_eq (createSitemap_count t str1 name delta hs))

/-- Witness for C8 at a concrete input: two create calls on initially empty
stores. -/
theorem create_replace_semantics_witness :
    cacheCountName (createSitemapCache (createSitemapCache ⟨[], 0⟩ "j1" "main") "j2" "main")
        "main" = 1 ∧
      sitemapCountKey (createSitemap (createSitemap ⟨[], 0⟩ "s1" "main" 0) "s2" "main" 0)
          "main" 0 = 1 :=
  create_replace_semantics ⟨[], 0⟩ ⟨[], 0⟩ "j1" "j2" "s1" "s2" "main" 0 (by decide) (by decide)

/-- C8 counterexample: from a store already holding two cache records named
`a`, two successive `createSitemapCache` calls with name `a` leave two
records with that name, not exactly one — each call deletes only the first
match. -/
theorem createSitemapCache_twice_duplicates :
    cacheCountName
        (createSitemapCache (createSitemapCache ⟨[⟨0, "a", "x"⟩, ⟨1, "a", "y"⟩], 2⟩ "j1" "a")
          "j2" "a") "a" = 2 := by decide

/-- C9: when no cache record carries the given name, `updateSitemapCache`
returns the store unchanged: nothing is created, nothing else is modified
and nothing is raised. -/
theorem updateSitemapCache_frame (s : CacheStore) (j name : String)
    (h : s.records.filter (fun r => r.name == name) = []) :
    updateSitemapCache s j name = s := by
  simp [updateSitemapCache, h]

/-- Witness for C9 at a concrete input: a store holding only a record with
another name. -/
theorem updateSitemapCache_frame_witness :
    updateSitemapCache ⟨[⟨0, "other", "x"⟩], 1⟩ "j" "main" = ⟨[⟨0, "other", "x"⟩], 1⟩ :=
  updateSitemapCache_frame ⟨[⟨0, "other", "x"⟩], 1⟩ "j" "main" (by decide)

/-- The cumulative effect of deleting a batch of records by id. -/
theorem foldl_deleteById (ds : List SitemapRecord) :
    ∀ (s : SitemapStore),
      (ds.foldl (fun st r => sitemapDeleteById st r.id) s).records
          = s.records.filter (fun r => ds.all (fun d => !(r.id == d.id))) ∧
        (ds.foldl (fun st r => sitemapDeleteById st r.id) s).nextId = s.nextId := by
  induction ds with
  | nil =>
    intro s
    simp
  | cons d ds ih =>
    intro s
    rw [List.foldl_cons]
    obtain ⟨h1, h2⟩ := ih (sitemapDeleteById s d.id)
    refine ⟨?_, h2⟩
    rw [h1]
    simp only [sitemapDeleteById]
    rw [List.filter_filter]
    apply List.filter_congr
    intro x _
    rw [List.all_cons]
    exact Bool.and_comm _ _

/-- C10: on a store whose record ids are unique (the primary-key invariant
of the entity service), `deleteSitemap` removes exactly the records whose
name equals the given name: the remaining records are the other-named
records, unchanged and in order, and the id counter is untouched. -/
theorem deleteSitemap_spec (s : SitemapStore) (name : String)
    (hids : (s.records.map (fun r => r.id)).Nodup) :
    (deleteSitemap s name).records = s.records.filter (fun r => !(r.name == name)) ∧
      (deleteSitemap s name).nextId = s.nextId := by
  obtain ⟨h1, h2⟩ := foldl_deleteById (s.records.filter (fun r => r.name == name)) s
  refine ⟨?_, h2⟩
  rw [deleteSitemap, h1]
  apply List.filter_congr
  intro x hx
  by_cases hn : (x.name == name) = true
  · have hxd : x ∈ s.records.filter (fun r => r.name == name) := List.mem_filter.mpr ⟨hx, hn⟩
    have hfalse :
        (s.records.filter (fun r => r.name == name)).all (fun d => !(x.id == d.id)) = false := by
      cases hall : (s.records.filter (fun r => r.name == name)).all (fun d => !(x.id == d.id)) with
      | false => rfl
      | true =>
        have := List.all_eq_true.mp hall x hxd
        simp at this
    rw [hfalse, hn]
    rfl
  · have hall : ∀ d ∈ s.records.filter (fun r => r.name == name), (!(x.id == d.id)) = true := by
      intro d hd
      obtain ⟨hdm, hdn⟩ := List.mem_filter.mp hd
      have hne : ¬ (x.id = d.id) := by
        intro hid
        have hxd : x = d := List.inj_on_of_nodup_map hids hx hdm hid
        rw [hxd] at hn
        exact hn hdn
      simp [hne]
    rw [List.all_eq_true.mpr hall]
    simp only [Bool.not_eq_true] at hn
    rw [hn]
    rfl

/-- Witness for C10 at a concrete input: deleting name `a` from a store
with two `a` records and one `b` record keeps exactly the `b` record. -/
theorem deleteSitemap_spec_witness :
    (deleteSitemap ⟨[⟨0, "a", 0, "s"⟩, ⟨1, "b", 0, "t"⟩, ⟨2, "a", 1, "u"⟩], 3⟩ "a").records
        = List.filter (fun r => !(r.name == "a"))
            [⟨0, "a", 0, "s"⟩, ⟨1, "b", 0, "t"⟩, ⟨2, "a", 1, "u"⟩] ∧
      (deleteSitemap ⟨[⟨0, "a", 0, "s"⟩, ⟨1, "b", 0, "t"⟩, ⟨2, "a", 1, "u"⟩], 3⟩ "a").nextId = 3 :=
  deleteSitemap_spec ⟨[⟨0, "a", 0, "s"⟩, ⟨1, "b", 0, "t"⟩, ⟨2, "a", 1, "u"⟩], 3⟩ "a" (by decide)
